import Mathlib

/-!
Verification of the COVID-19 public-health ETL pipeline
(`dags/covid_data_pipeline.py`) against its specification.

The pipeline is shallowly embedded: CSV payloads are lists of characters,
a dataframe is a list of rows, pandas numeric cells are rationals (with
`none` for non-numeric text), `astype(int)` is truncation toward zero,
and the Airflow task graph is a pure function on an explicit world state
(the two S3 keys and the destination table).
-/

namespace CovidPipeline

/-! ## Structural CSV layer

`pd.read_csv` / `DataFrame.to_csv(index=False)` at the structural level:
a payload is split into newline-separated lines, each line into
comma-separated fields; encoding joins fields with commas and terminates
every line (header included) with a newline, exactly as `to_csv` does.
-/

/-- Prepend a character to the first piece of a split result. -/
def consHead (c : Char) : List (List Char) → List (List Char)
  | [] => [[c]]
  | r :: rs => (c :: r) :: rs

/-- Split a character list on a separator; always returns at least one piece. -/
def splitOnChar (sep : Char) : List Char → List (List Char)
  | [] => [[]]
  | c :: cs =>
    if c = sep then [] :: splitOnChar sep cs else consHead c (splitOnChar sep cs)

/-- Join pieces with a separator character (inverse of `splitOnChar`). -/
def joinSep (sep : Char) : List (List Char) → List Char
  | [] => []
  | [x] => x
  | x :: y :: xs => x ++ sep :: joinSep sep (y :: xs)

/-- One structurally decoded row of the source CSV: the five fields of
`date,state,fips,cases,deaths`, kept as the raw character data. -/
structure CsvRow where
  date : List Char
  state : List Char
  fips : List Char
  cases : List Char
  deaths : List Char
deriving DecidableEq

/-- The header line of the source CSV. -/
def headerChars : List Char := "date,state,fips,cases,deaths".toList

/-- Decode one data line into its five fields. -/
def decodeRow (line : List Char) : Option CsvRow :=
  match splitOnChar ',' line with
  | [d, s, f, c, dh] => some ⟨d, s, f, c, dh⟩
  | _ => none

/-- Encode one row as a comma-separated line. -/
def encodeRow (r : CsvRow) : List Char :=
  joinSep ',' [r.date, r.state, r.fips, r.cases, r.deaths]

/-- Decode a list of data lines; fails if any line is malformed. -/
def decodeRows : List (List Char) → Option (List CsvRow)
  | [] => some []
  | line :: rest =>
    match decodeRow line, decodeRows rest with
    | some r, some rs => some (r :: rs)
    | _, _ => none

/-- Structural decode of a whole payload: non-blank lines, a mandatory
header, then one `CsvRow` per data line. -/
def decodeCsv (payload : List Char) : Option (List CsvRow) :=
  match (splitOnChar '\n' payload).filter (fun l => !l.isEmpty) with
  | [] => none
  | h :: dataLines => if h = headerChars then decodeRows dataLines else none

/-- `to_csv(index=False)`: header then one newline-terminated line per row. -/
def encodeCsv (rows : List CsvRow) : List Char :=
  headerChars ++ '\n' :: rows.flatMap (fun r => encodeRow r ++ ['\n'])

/-! ## Error taxonomy (spec section 7) -/

inductive PipelineError where
  | SourceUnavailable
  | MalformedSource
  | StagingUnavailable
  | LoadFailed
deriving DecidableEq

/-! ## Value parsing

`pd.read_csv` type inference and `pd.to_datetime` for the relevant inputs:
a numeric cell is an optionally signed decimal numeral, held exactly as an
integer mantissa with a power-of-ten scale (the decimal values the source
CSV can denote), a date is `YYYY-MM-DD`.  A cell that fails to parse makes
its column non-numeric, which makes the transform task raise — modelled as
`MalformedSource` for the whole snapshot.
-/

/-- An exact decimal `mant / 10 ^ exp`: the value of one numeric CSV cell
after `pd.read_csv` type conversion. -/
structure Dec where
  mant : Int
  exp : Nat
deriving DecidableEq

/-- The decimal zero (what `fillna(0)` inserts). -/
def Dec.zero : Dec := ⟨0, 0⟩

/-- Negation of a decimal. -/
def Dec.neg (d : Dec) : Dec := ⟨-d.mant, d.exp⟩

/-- Exact subtraction of decimals, aligning the scales. -/
def Dec.sub (a b : Dec) : Dec :=
  ⟨a.mant * (10 : Int) ^ (max a.exp b.exp - a.exp)
    - b.mant * (10 : Int) ^ (max a.exp b.exp - b.exp), max a.exp b.exp⟩

/-- Model of `clip(lower=0)` on one cell: negative values floor to zero. -/
def Dec.clip0 (d : Dec) : Dec := if d.mant < 0 then ⟨0, d.exp⟩ else d

/-- Model of `astype(int)` on one cell: C-style truncation toward zero. -/
def Dec.trunc (d : Dec) : Int := d.mant.tdiv ((10 : Int) ^ d.exp)

/-- Accumulator loop for digit parsing. -/
def parseDigitsAcc : List Char → Nat → Option Nat
  | [], acc => some acc
  | c :: cs, acc =>
    if c.isDigit then parseDigitsAcc cs (acc * 10 + (c.toNat - '0'.toNat)) else none

/-- Parse a non-empty all-digit string as a natural number. -/
def parseNatDigits : List Char → Option Nat
  | [] => none
  | cs => parseDigitsAcc cs 0

/-- Number of days in a month, with the Gregorian leap rule —
`pd.to_datetime` raises on calendar-invalid dates such as `2021-02-30`
or `2021-04-31`, and accepts `2020-02-29` but not `2021-02-29`. -/
def daysInMonth (y m : Nat) : Nat :=
  if m = 2 then
    if y % 4 = 0 ∧ (y % 100 ≠ 0 ∨ y % 400 = 0) then 29 else 28
  else if m = 4 ∨ m = 6 ∨ m = 9 ∨ m = 11 then 30
  else 31

/-- Parse `YYYY-MM-DD` into the order-preserving key `y*10000 + m*100 + d`,
with the validation `pd.to_datetime` performs: the day must exist in the
month (leap years included), and the date must lie in the representable
`pd.Timestamp` range, whose whole days run from `1677-09-22` to
`2262-04-11` (a nanosecond 64-bit epoch); outside it `to_datetime`
raises `OutOfBoundsDatetime`. -/
def parseDate (s : List Char) : Option Nat :=
  match splitOnChar '-' s with
  | [y, m, d] =>
    match parseNatDigits y, parseNatDigits m, parseNatDigits d with
    | some yn, some mn, some dn =>
      if 1 ≤ mn ∧ mn ≤ 12 ∧ 1 ≤ dn ∧ dn ≤ daysInMonth yn mn ∧
          16770922 ≤ yn * 10000 + mn * 100 + dn ∧
          yn * 10000 + mn * 100 + dn ≤ 22620411 then
        some (yn * 10000 + mn * 100 + dn)
      else none
    | _, _, _ => none
  | _ => none

/-- Parse an unsigned decimal numeral (`"100"` or `"100.5"`) as a decimal. -/
def parseUnsignedDec (s : List Char) : Option Dec :=
  match splitOnChar '.' s with
  | [ip] => (parseNatDigits ip).map (fun n => ⟨(n : Int), 0⟩)
  | [ip, fp] =>
    match parseNatDigits ip, parseNatDigits fp with
    | some i, some f => some ⟨(i : Int) * (10 : Int) ^ fp.length + (f : Int), fp.length⟩
    | _, _ => none
  | _ => none

/-- The smallest int64, the bound of the frame's integer dtype. -/
def int64Min : Int := -9223372036854775808

/-- The largest int64, the bound of the frame's integer dtype. -/
def int64Max : Int := 9223372036854775807

/-- Reject a decimal whose integer truncation leaves the int64 range:
`astype(int)` raises on such values instead of converting them. -/
def fitsInt64 (d : Dec) : Option Dec :=
  if int64Min ≤ d.trunc ∧ d.trunc ≤ int64Max then some d else none

/-- Parse an optionally negated decimal numeral, within the int64 range
the pipeline's integer cast can represent. -/
def parseNumCell (s : List Char) : Option Dec :=
  match s with
  | '-' :: rest => ((parseUnsignedDec rest).map Dec.neg).bind fitsInt64
  | _ => (parseUnsignedDec s).bind fitsInt64

/-- Parse an integer numeral (optional sign, digits, no decimal point) in
the int64 range: the cells `read_csv` infers an int64 column from. -/
def parseIntText (s : List Char) : Option Int :=
  match s with
  | '-' :: rest =>
    (parseNatDigits rest).bind fun n =>
      if int64Min ≤ -(n : Int) then some (-(n : Int)) else none
  | _ =>
    (parseNatDigits s).bind fun n =>
      if (n : Int) ≤ int64Max then some ((n : Int)) else none

/-- The value of one cell of a float64 column: a decimal, or NaN from a
blank cell. -/
inductive CellVal where
  | num (d : Dec)
  | nan
deriving DecidableEq

/-- Parse one cell the way float64 column inference reads it: blank is
NaN, anything else must be a decimal numeral. -/
def parseFloatCell (s : List Char) : Option CellVal :=
  if s.isEmpty then some CellVal.nan else (parseNumCell s).map CellVal.num

/-! ## Rendering numbers the way `to_csv` does -/

/-- The character of one decimal digit. -/
def digitChar (d : Nat) : Char := Char.ofNat (48 + d)

/-- Fuel-driven base-10 digit accumulation. -/
def natDigitsAux : Nat → Nat → List Char → List Char
  | 0, _, acc => acc
  | fuel + 1, n, acc =>
    if n < 10 then digitChar n :: acc
    else natDigitsAux fuel (n / 10) (digitChar (n % 10) :: acc)

/-- Decimal digits of a natural number, most significant first. -/
def natDigits (n : Nat) : List Char := natDigitsAux (n + 1) n []

/-- Render an integer in canonical decimal (`to_csv` on an int64 column:
`01` prints back as `1`). -/
def renderInt : Int → List Char
  | .ofNat n => natDigits n
  | .negSucc n => '-' :: natDigits (n + 1)

/-- Drop trailing zero decimal digits: `float` repr prints the shortest
decimal denoting the value. -/
def stripTrailingZeros : Int → Nat → Int × Nat
  | m, 0 => (m, 0)
  | m, e + 1 => if m % 10 = 0 then stripTrailingZeros (m / 10) e else (m, e + 1)

/-- Render a decimal with no trailing zero digits as float text: an
integer value prints with a `.0`, otherwise integer part, point, and the
fractional digits zero-padded on the left to the scale. -/
def renderFloatStripped (m : Int) (e : Nat) : List Char :=
  if e = 0 then renderInt m ++ '.' :: '0' :: []
  else
    (if m < 0 then ['-'] else []) ++ natDigits (m.natAbs / 10 ^ e) ++
      '.' :: (List.replicate (e - (natDigits (m.natAbs % 10 ^ e)).length) '0' ++
        natDigits (m.natAbs % 10 ^ e))

/-- Render one float64 value as `to_csv` prints it (`5` → `5.0`,
`5.50` → `5.5`). -/
def renderFloatDec (d : Dec) : List Char :=
  renderFloatStripped (stripTrailingZeros d.mant d.exp).1 (stripTrailingZeros d.mant d.exp).2

/-- Render one float64 cell; NaN prints as a blank field. -/
def renderFloatCell : CellVal → List Char
  | .num d => renderFloatDec d
  | .nan => []

/-! ## Column type inference (`pd.read_csv`) and `to_csv` re-rendering -/

/-- The dtype `read_csv` infers for one column. -/
inductive ColKind where
  | intCol
  | floatCol
  | objCol
deriving DecidableEq

/-- Infer a column's dtype: int64 when every cell is an int64 numeral,
float64 when every cell is a decimal numeral or blank, text otherwise. -/
def colKindOf (cells : List (List Char)) : ColKind :=
  if cells.all (fun c => (parseIntText c).isSome) then ColKind.intCol
  else if cells.all (fun c => (parseFloatCell c).isSome) then ColKind.floatCol
  else ColKind.objCol

/-- The inferred dtypes of the five source columns. -/
structure ColKinds where
  date : ColKind
  state : ColKind
  fips : ColKind
  cases : ColKind
  deaths : ColKind

/-- The dtypes `read_csv` infers for a decoded snapshot. -/
def colKinds (rows : List CsvRow) : ColKinds :=
  ⟨colKindOf (rows.map CsvRow.date), colKindOf (rows.map CsvRow.state),
   colKindOf (rows.map CsvRow.fips), colKindOf (rows.map CsvRow.cases),
   colKindOf (rows.map CsvRow.deaths)⟩

/-- Re-render one field according to its column's dtype: text columns are
untouched, numeric columns print their parsed value canonically. -/
def canonField : ColKind → List Char → List Char
  | ColKind.objCol, s => s
  | ColKind.intCol, s =>
    match parseIntText s with
    | some v => renderInt v
    | none => s
  | ColKind.floatCol, s =>
    match parseFloatCell s with
    | some c => renderFloatCell c
    | none => s

/-- Re-render one row's five fields according to the column dtypes. -/
def canonRow (k : ColKinds) (r : CsvRow) : CsvRow :=
  ⟨canonField k.date r.date, canonField k.state r.state, canonField k.fips r.fips,
   canonField k.cases r.cases, canonField k.deaths r.deaths⟩

/-- What `read_csv` then `to_csv` leaves of a decoded snapshot: every row,
in order, with numeric columns re-rendered. -/
def canonRows (rows : List CsvRow) : List CsvRow :=
  rows.map (canonRow (colKinds rows))

/-- Model of `extract_data` (source lines 50-53): `pd.read_csv(DATA_URL)`
followed by `df.to_csv(index=False)` — a structural decode of the fetched
payload, `read_csv` column type inference, and the `to_csv` re-rendering
of the same rows in the same order with no filtering: integer columns
print canonically (`01` → `1`), float columns print with a decimal point
(`5` → `5.0`, `5.50` → `5.5`, blank for NaN), text columns byte-identical. -/
def extract_data (payload : List Char) : Except PipelineError (List Char) :=
  match decodeCsv payload with
  | none => .error .MalformedSource
  | some rows => .ok (encodeCsv (canonRows rows))

/-- A row after `pd.to_datetime` and numeric type inference succeed:
the dataframe row the transform algorithm actually operates on. -/
structure TypedRow where
  date : Nat
  state : List Char
  fips : Dec
  cases : Dec
  deaths : Dec
deriving DecidableEq

/-- Parse the date and the three numeric cells of one row. -/
def parseRow (r : CsvRow) : Option TypedRow :=
  match parseDate r.date, parseNumCell r.fips, parseNumCell r.cases,
      parseNumCell r.deaths with
  | some d, some f, some c, some dh => some ⟨d, r.state, f, c, dh⟩
  | _, _, _, _ => none

/-- Column-wise conversion is all-or-nothing: one bad cell fails the frame. -/
def parseAll : List CsvRow → Option (List TypedRow)
  | [] => some []
  | r :: rs =>
    match parseRow r, parseAll rs with
    | some t, some ts => some (t :: ts)
    | _, _ => none

/-! ## Sorting (`df.sort_values(by=['state', 'date'])`, line 71) -/

/-- Strict lexicographic order on character lists (Python string `<`). -/
def charListLt : List Char → List Char → Bool
  | [], [] => false
  | [], _ :: _ => true
  | _ :: _, [] => false
  | a :: as, b :: bs => if a < b then true else if b < a then false else charListLt as bs

/-- The sort key order of `sort_values(by=['state', 'date'])`:
by state, ties broken by date. -/
def rowLe (a b : TypedRow) : Prop :=
  charListLt a.state b.state = true ∨ (a.state = b.state ∧ a.date ≤ b.date)

instance : DecidableRel rowLe := fun a b => by
  unfold rowLe; infer_instance

/-- Line 71: `df.sort_values(by=['state', 'date'])`. -/
def sortRows (l : List TypedRow) : List TypedRow :=
  l.insertionSort rowLe

/-! ## Transform (`transform_data`, source lines 67-78) -/

/-- A dataframe row after lines 72-73 added the diff columns
(still float-valued, as pandas diffs are). -/
structure DiffRow where
  date : Nat
  state : List Char
  fips : Dec
  cases : Dec
  deaths : Dec
  new_cases : Dec
  new_deaths : Dec
deriving DecidableEq

/-- A row of the final cleaned output, after `astype(int)` (lines 76-77). -/
structure CleanRecord where
  date : Nat
  state : List Char
  fips : Int
  cases : Int
  deaths : Int
  new_cases : Int
  new_deaths : Int
deriving DecidableEq

/-- The most recent `(cases, deaths)` seen for a state (the value
`groupby('state').diff()` subtracts for the next row of that group). -/
def lookupState (s : List Char) : List (List Char × Dec × Dec) → Option (Dec × Dec)
  | [] => none
  | (t, v) :: rest => if t = s then some v else lookupState s rest

/-- Lines 72-73: `df.groupby('state')['cases'].diff().fillna(0)` and the same
for deaths.  Each row's diff is taken against the previous row of the same
state in dataframe order; the first row of a group gets `NaN`, filled to 0. -/
def addDiffs : List TypedRow → List (List Char × Dec × Dec) → List DiffRow
  | [], _ => []
  | r :: rs, seen =>
    let nc : Dec := match lookupState r.state seen with
      | some (pc, _) => Dec.sub r.cases pc
      | none => Dec.zero
    let nd : Dec := match lookupState r.state seen with
      | some (_, pd) => Dec.sub r.deaths pd
      | none => Dec.zero
    ⟨r.date, r.state, r.fips, r.cases, r.deaths, nc, nd⟩ ::
      addDiffs rs ((r.state, r.cases, r.deaths) :: seen)

/-- Lines 74-75: `clip(lower=0)` on the two new columns. -/
def clampRow (r : DiffRow) : DiffRow :=
  { r with new_cases := r.new_cases.clip0, new_deaths := r.new_deaths.clip0 }

/-- Lines 76-77: cast the five numeric columns to integers. -/
def castRow (r : DiffRow) : CleanRecord :=
  ⟨r.date, r.state, r.fips.trunc, r.cases.trunc, r.deaths.trunc,
    r.new_cases.trunc, r.new_deaths.trunc⟩

/-- Lines 71-77 on an already-typed dataframe: sort, diff, clamp, cast. -/
def transform_core (ts : List TypedRow) : List CleanRecord :=
  ((addDiffs (sortRows ts) []).map clampRow).map castRow

/-- Model of `transform_data` (lines 67-78) on the decoded snapshot: type conversion
of every cell (raising `MalformedSource` on any non-numeric cell or
unparseable date), then the sort/diff/clamp/cast pipeline. -/
def transform_data (rows : List CsvRow) : Except PipelineError (List CleanRecord) :=
  match parseAll rows with
  | none => .error .MalformedSource
  | some ts => .ok (transform_core ts)

/-! ## Serializing the cleaned output (`df.to_csv(index=False)`, line 78) -/

/-- Render a natural number zero-padded to at least two digits. -/
def pad2 (n : Nat) : List Char :=
  if n < 10 then '0' :: natDigits n else natDigits n

/-- Render a date key back as `YYYY-MM-DD` (`to_csv` on a datetime column). -/
def renderDate (n : Nat) : List Char :=
  natDigits (n / 10000) ++ '-' :: pad2 (n / 100 % 100) ++ '-' :: pad2 (n % 100)

/-- Header of the processed CSV. -/
def cleanHeaderChars : List Char :=
  "date,state,fips,cases,deaths,new_cases,new_deaths".toList

/-- Render one cleaned row as a CSV line. -/
def encodeCleanRow (c : CleanRecord) : List Char :=
  joinSep ',' [renderDate c.date, c.state, renderInt c.fips, renderInt c.cases,
    renderInt c.deaths, renderInt c.new_cases, renderInt c.new_deaths]

/-- Model of `to_csv(index=False)` for the cleaned dataframe. -/
def encodeCleanCsv (cs : List CleanRecord) : List Char :=
  cleanHeaderChars ++ '\n' :: cs.flatMap (fun c => encodeCleanRow c ++ ['\n'])

/-- The transform task at its actual boundary: CSV text in, CSV text out. -/
def transform_task (payload : List Char) : Except PipelineError (List Char) :=
  match decodeCsv payload with
  | none => .error .MalformedSource
  | some rows => (transform_data rows).map encodeCleanCsv

/-! ## Loader (`load_clean_data_to_postgres`, lines 92-103) -/

/-- The primary key of the destination table, `PRIMARY KEY (date, state)`. -/
def cleanKey (c : CleanRecord) : Nat × List Char := (c.date, c.state)

/-- Line 95: `TRUNCATE TABLE covid_state_metrics`. -/
def truncateTable (_t : List CleanRecord) : List CleanRecord := []

/-- Lines 100-103: `COPY covid_state_metrics FROM STDIN WITH CSV HEADER` —
bulk insert that respects the primary-key constraint, failing on any
duplicate `(date, state)`. -/
def copyInto (t : List CleanRecord) (snap : List CleanRecord) :
    Except PipelineError (List CleanRecord) :=
  if ((t ++ snap).map cleanKey).Nodup then .ok (t ++ snap)
  else .error .LoadFailed

/-- The loader task: truncate the destination table, then bulk-copy the
snapshot into it. -/
def load_clean_data_to_postgres (t : List CleanRecord) (snap : List CleanRecord) :
    Except PipelineError (List CleanRecord) :=
  copyInto (truncateTable t) snap

/-! ## The task graph (lines 105-115) on an explicit world state -/

/-- The externally visible state the pipeline writes: the two S3 objects
and the destination table (`none` = absent). -/
structure WorldState where
  s3raw : Option (List Char)
  s3clean : Option (List Char)
  table : Option (List CleanRecord)
deriving DecidableEq

/-- Model of `create_postgres_table_if_not_exists` (lines 32-47): create the
empty table when absent, leave it alone otherwise. -/
def create_postgres_table_if_not_exists (w : WorldState) : WorldState :=
  { w with table := some (w.table.getD []) }

/-- Model of `stage_raw_data_to_s3` (lines 56-64): overwrite the raw key. -/
def stage_raw_data_to_s3 (w : WorldState) (csv : List Char) : WorldState :=
  { w with s3raw := some csv }

/-- Model of `stage_clean_data_to_s3` (lines 81-89): overwrite the processed key. -/
def stage_clean_data_to_s3 (w : WorldState) (csv : List Char) : WorldState :=
  { w with s3clean := some csv }

/-- Outcome of one scheduled run: the final world and the first error. -/
structure RunResult where
  world : WorldState
  error : Option PipelineError
deriving DecidableEq

/-- One run of the DAG (lines 105-115): extract fans out to the raw stager
and the transform; the transform fans out to the clean stager and the
loader; the loader also waits on table creation.  A failed task keeps its
downstream tasks from starting; tasks not downstream of it still run. -/
def run_etl (w : WorldState) (payload : List Char) : RunResult :=
  let w0 := create_postgres_table_if_not_exists w
  match extract_data payload with
  | .error e => ⟨w0, some e⟩
  | .ok rawCsv =>
    let w1 := stage_raw_data_to_s3 w0 rawCsv
    match decodeCsv rawCsv with
    | none => ⟨w1, some .MalformedSource⟩
    | some rows =>
      match transform_data rows with
      | .error e => ⟨w1, some e⟩
      | .ok clean =>
        let w2 := stage_clean_data_to_s3 w1 (encodeCleanCsv clean)
        match load_clean_data_to_postgres (w2.table.getD []) clean with
        | .error e => ⟨{ w2 with table := some [] }, some e⟩
        | .ok t => ⟨{ w2 with table := some t }, none⟩

/-! ## Lemmas about the lexicographic sort key -/

theorem charListLt_irrefl (a : List Char) : charListLt a a = false := by
  induction a with
  | nil => rfl
  | cons c cs ih =>
    show charListLt (c :: cs) (c :: cs) = false
    rw [charListLt, if_neg (lt_irrefl c), if_neg (lt_irrefl c)]
    exact ih

theorem charListLt_trans : ∀ {a b c : List Char},
    charListLt a b = true → charListLt b c = true → charListLt a c = true := by
  intro a
  induction a with
  | nil =>
    intro b c hab hbc
    cases b with
    | nil => simp [charListLt] at hab
    | cons y ys =>
      cases c with
      | nil => simp [charListLt] at hbc
      | cons z zs => rfl
  | cons x xs ih =>
    intro b c hab hbc
    cases b with
    | nil => simp [charListLt] at hab
    | cons y ys =>
      cases c with
      | nil => simp [charListLt] at hbc
      | cons z zs =>
        rw [charListLt] at hab hbc ⊢
        rcases lt_trichotomy x y with hxy | hxy | hxy
        · rcases lt_trichotomy y z with hyz | hyz | hyz
          · rw [if_pos (lt_trans hxy hyz)]
          · subst hyz; rw [if_pos hxy]
          · rw [if_neg (lt_asymm hyz), if_pos hyz] at hbc; exact absurd hbc (by simp)
        · subst hxy
          rw [if_neg (lt_irrefl x), if_neg (lt_irrefl x)] at hab
          rcases lt_trichotomy x z with hxz | hxz | hxz
          · rw [if_pos hxz]
          · subst hxz
            rw [if_neg (lt_irrefl x), if_neg (lt_irrefl x)] at hbc ⊢
            exact ih hab hbc
          · rw [if_neg (lt_asymm hxz), if_pos hxz] at hbc; exact absurd hbc (by simp)
        · rw [if_neg (lt_asymm hxy), if_pos hxy] at hab; exact absurd hab (by simp)

theorem charListLt_connex (a : List Char) :
    ∀ b, charListLt a b = true ∨ a = b ∨ charListLt b a = true := by
  induction a with
  | nil =>
    intro b
    cases b with
    | nil => exact Or.inr (Or.inl rfl)
    | cons y ys => exact Or.inl rfl
  | cons x xs ih =>
    intro b
    cases b with
    | nil => exact Or.inr (Or.inr rfl)
    | cons y ys =>
      rcases lt_trichotomy x y with hxy | hxy | hxy
      · exact Or.inl (by rw [charListLt, if_pos hxy])
      · subst hxy
        rcases ih ys with h | h | h
        · exact Or.inl (by rw [charListLt, if_neg (lt_irrefl x), if_neg (lt_irrefl x)]; exact h)
        · exact Or.inr (Or.inl (by rw [h]))
        · exact Or.inr (Or.inr (by rw [charListLt, if_neg (lt_irrefl x), if_neg (lt_irrefl x)]; exact h))
      · exact Or.inr (Or.inr (by rw [charListLt, if_pos hxy]))

instance : IsTotal TypedRow rowLe where
  total a b := by
    rcases charListLt_connex a.state b.state with h | h | h
    · exact Or.inl (Or.inl h)
    · rcases Nat.le_total a.date b.date with hd | hd
      · exact Or.inl (Or.inr ⟨h, hd⟩)
      · exact Or.inr (Or.inr ⟨h.symm, hd⟩)
    · exact Or.inr (Or.inl h)

instance : IsTrans TypedRow rowLe where
  trans a b c hab hbc := by
    rcases hab with h1 | ⟨e1, d1⟩
    · rcases hbc with h2 | ⟨e2, d2⟩
      · exact Or.inl (charListLt_trans h1 h2)
      · exact Or.inl (e2 ▸ h1)
    · rcases hbc with h2 | ⟨e2, d2⟩
      · exact Or.inl (e1 ▸ h2)
      · exact Or.inr ⟨e1.trans e2, le_trans d1 d2⟩

/-- The sorted dataframe is a permutation of the typed input rows. -/
theorem sortRows_perm (l : List TypedRow) : (sortRows l).Perm l :=
  List.perm_insertionSort rowLe l

/-- The sorted dataframe is sorted under the `(state, date)` key order. -/
theorem sortRows_sorted (l : List TypedRow) : List.Sorted rowLe (sortRows l) :=
  List.sorted_insertionSort rowLe l

/-! ## Projection lemmas: what the transform keeps of each row -/

/-- The five original columns of a cleaned record. -/
def projC (c : CleanRecord) : Nat × List Char × Int × Int × Int :=
  (c.date, c.state, c.fips, c.cases, c.deaths)

/-- The five original columns of a typed input row, as they read after the
integer cast. -/
def projT (r : TypedRow) : Nat × List Char × Int × Int × Int :=
  (r.date, r.state, r.fips.trunc, r.cases.trunc, r.deaths.trunc)

/-- The five original columns of an intermediate diff row, after the cast. -/
def projD (d : DiffRow) : Nat × List Char × Int × Int × Int :=
  (d.date, d.state, d.fips.trunc, d.cases.trunc, d.deaths.trunc)

/-- The `(state, date)` sort key of a cleaned record. -/
def sdKeyC (c : CleanRecord) : List Char × Nat := (c.state, c.date)

/-- The `(state, date)` sort key of a typed input row. -/
def sdKeyT (r : TypedRow) : List Char × Nat := (r.state, r.date)

/-- The `(state, date)` sort key of an intermediate diff row. -/
def sdKeyD (d : DiffRow) : List Char × Nat := (d.state, d.date)

/-- The destination primary key of a typed input row. -/
def typedKey (r : TypedRow) : Nat × List Char := (r.date, r.state)

theorem projC_cast_clamp (d : DiffRow) : projC (castRow (clampRow d)) = projD d := rfl

theorem sdKeyC_cast_clamp (d : DiffRow) : sdKeyC (castRow (clampRow d)) = sdKeyD d := rfl

theorem addDiffs_map_projD (l : List TypedRow) :
    ∀ seen, (addDiffs l seen).map projD = l.map projT := by
  induction l with
  | nil => intro seen; rfl
  | cons r rs ih =>
    intro seen
    simp only [addDiffs, List.map_cons, ih]
    rfl

theorem addDiffs_map_sdKeyD (l : List TypedRow) :
    ∀ seen, (addDiffs l seen).map sdKeyD = l.map sdKeyT := by
  induction l with
  | nil => intro seen; rfl
  | cons r rs ih =>
    intro seen
    simp only [addDiffs, List.map_cons, ih]
    rfl

theorem transform_core_map_projC (ts : List TypedRow) :
    (transform_core ts).map projC = (sortRows ts).map projT := by
  unfold transform_core
  rw [List.map_map, List.map_map]
  have h : projC ∘ castRow ∘ clampRow = projD := funext fun d => projC_cast_clamp d
  rw [show (projC ∘ castRow) ∘ clampRow = projC ∘ castRow ∘ clampRow from rfl, h,
    addDiffs_map_projD]

theorem transform_core_map_sdKeyC (ts : List TypedRow) :
    (transform_core ts).map sdKeyC = (sortRows ts).map sdKeyT := by
  unfold transform_core
  rw [List.map_map, List.map_map]
  have h : sdKeyC ∘ castRow ∘ clampRow = sdKeyD := funext fun d => sdKeyC_cast_clamp d
  rw [show (sdKeyC ∘ castRow) ∘ clampRow = sdKeyC ∘ castRow ∘ clampRow from rfl, h,
    addDiffs_map_sdKeyD]

theorem transform_core_map_cleanKey (ts : List TypedRow) :
    (transform_core ts).map cleanKey = (sortRows ts).map typedKey := by
  have h1 : cleanKey = (fun p : List Char × Nat => (p.2, p.1)) ∘ sdKeyC := rfl
  have h2 : typedKey = (fun p : List Char × Nat => (p.2, p.1)) ∘ sdKeyT := rfl
  rw [h1, h2, ← List.map_map, ← List.map_map, transform_core_map_sdKeyC]

/-- The original columns of the output are a permutation of those of the
typed input. -/
theorem transform_core_perm_projC (ts : List TypedRow) :
    ((transform_core ts).map projC).Perm (ts.map projT) := by
  rw [transform_core_map_projC]
  exact (sortRows_perm ts).map projT

/-- The primary keys of the output are a permutation of those of the
typed input. -/
theorem transform_core_perm_cleanKey (ts : List TypedRow) :
    ((transform_core ts).map cleanKey).Perm (ts.map typedKey) := by
  rw [transform_core_map_cleanKey]
  exact (sortRows_perm ts).map typedKey

/-! ## Non-negativity of the clamped-and-cast diff columns -/

theorem Dec.trunc_nonneg {d : Dec} (h : 0 ≤ d.mant) : 0 ≤ d.trunc :=
  Int.tdiv_nonneg h (pow_nonneg (by norm_num) d.exp)

theorem Dec.clip0_mant_nonneg (d : Dec) : 0 ≤ d.clip0.mant := by
  rw [Dec.clip0]
  by_cases h : d.mant < 0
  · rw [if_pos h]
  · rw [if_neg h]; exact le_of_not_lt h

theorem mem_transform_core_nonneg {ts : List TypedRow} {c : CleanRecord}
    (hc : c ∈ transform_core ts) : 0 ≤ c.new_cases ∧ 0 ≤ c.new_deaths := by
  unfold transform_core at hc
  rcases List.mem_map.mp hc with ⟨d, hd, rfl⟩
  rcases List.mem_map.mp hd with ⟨e, _, rfl⟩
  constructor
  · exact Dec.trunc_nonneg (Dec.clip0_mant_nonneg e.new_cases)
  · exact Dec.trunc_nonneg (Dec.clip0_mant_nonneg e.new_deaths)

/-! ## Per-state ordering of the output -/

/-- The `(state, date)` key order, on the keys themselves. -/
def pairLe (x y : List Char × Nat) : Prop :=
  charListLt x.1 y.1 = true ∨ (x.1 = y.1 ∧ x.2 ≤ y.2)

/-- The sort key order read off a cleaned record. -/
def cleanLe (a b : CleanRecord) : Prop :=
  charListLt a.state b.state = true ∨ (a.state = b.state ∧ a.date ≤ b.date)

theorem transform_core_pairwise (ts : List TypedRow) :
    (transform_core ts).Pairwise cleanLe := by
  have hs : (sortRows ts).Pairwise rowLe := sortRows_sorted ts
  have h1 : ((sortRows ts).map sdKeyT).Pairwise pairLe := List.pairwise_map.mpr hs
  rw [← transform_core_map_sdKeyC] at h1
  have h2 := List.pairwise_map.mp h1
  exact h2.imp fun h => h

theorem cleanLe_same_state {a b : CleanRecord} (h : cleanLe a b)
    (hs : a.state = b.state) : a.date ≤ b.date := by
  rcases h with h | ⟨_, hd⟩
  · rw [hs, charListLt_irrefl] at h; exact absurd h (by simp)
  · exact hd

/-- Within one state, the output rows are sorted by ascending date. -/
theorem transform_core_state_sorted (ts : List TypedRow) (s : List Char) :
    ((transform_core ts).filter (fun c => decide (c.state = s))).Pairwise
      (fun a b => a.date ≤ b.date) := by
  have h := (transform_core_pairwise ts).filter (fun c => decide (c.state = s))
  refine h.imp_of_mem ?_
  intro a b ha hb hab
  have has : a.state = s := of_decide_eq_true (List.mem_filter.mp ha).2
  have hbs : b.state = s := of_decide_eq_true (List.mem_filter.mp hb).2
  exact cleanLe_same_state hab (has.trans hbs.symm)

/-! ## First row of each state group gets a zero diff -/

theorem addDiffs_filter_head (s : List Char) :
    ∀ (l : List TypedRow) (seen), lookupState s seen = none →
      ∀ d, ((addDiffs l seen).filter (fun d => decide (d.state = s))).head? = some d →
        d.new_cases = Dec.zero ∧ d.new_deaths = Dec.zero := by
  intro l
  induction l with
  | nil => intro seen _ d hd; simp [addDiffs] at hd
  | cons r rs ih =>
    intro seen hseen d hd
    simp only [addDiffs, List.filter_cons] at hd
    by_cases hrs : r.state = s
    · rw [if_pos (decide_eq_true hrs)] at hd
      rw [List.head?_cons, Option.some.injEq] at hd
      have hlook : lookupState r.state seen = none := by rw [hrs]; exact hseen
      subst hd
      refine ⟨?_, ?_⟩
      · show (match lookupState r.state seen with
          | some (pc, _) => Dec.sub r.cases pc
          | none => Dec.zero) = Dec.zero
        rw [hlook]
      · show (match lookupState r.state seen with
          | some (_, pd) => Dec.sub r.deaths pd
          | none => Dec.zero) = Dec.zero
        rw [hlook]
    · rw [if_neg (by simp [hrs])] at hd
      have hseen2 : lookupState s ((r.state, r.cases, r.deaths) :: seen) = none := by
        simp only [lookupState]
        rw [if_neg hrs]
        exact hseen
      exact ih _ hseen2 d hd

theorem transform_core_first_of_state {ts : List TypedRow} {s : List Char}
    {c : CleanRecord}
    (hc : ((transform_core ts).filter (fun c => decide (c.state = s))).head? = some c) :
    c.new_cases = 0 ∧ c.new_deaths = 0 := by
  unfold transform_core at hc
  rw [List.map_map, List.filter_map, List.head?_map] at hc
  have hpred : ((fun c : CleanRecord => decide (c.state = s)) ∘ (castRow ∘ clampRow))
      = fun d : DiffRow => decide (d.state = s) := rfl
  rw [hpred] at hc
  rcases Option.map_eq_some'.mp hc with ⟨d, hd, rfl⟩
  have hz := addDiffs_filter_head s (sortRows ts) [] rfl d hd
  constructor
  · show (Dec.clip0 d.new_cases).trunc = 0
    rw [hz.1]
    decide
  · show (Dec.clip0 d.new_deaths).trunc = 0
    rw [hz.2]
    decide

/-! ## Splitting and joining round-trips -/

theorem consHead_ne_nil (c : Char) : ∀ xss, consHead c xss ≠ []
  | [] => by simp [consHead]
  | r :: rs => by simp [consHead]

theorem splitOnChar_ne_nil (sep : Char) (l : List Char) : splitOnChar sep l ≠ [] := by
  cases l with
  | nil => simp [splitOnChar]
  | cons c cs =>
    simp only [splitOnChar]
    by_cases hc : c = sep
    · rw [if_pos hc]; simp
    · rw [if_neg hc]; exact consHead_ne_nil c _

theorem mem_splitOnChar_not_sep {sep : Char} :
    ∀ {l p : List Char}, p ∈ splitOnChar sep l → sep ∉ p := by
  intro l
  induction l with
  | nil =>
    intro p hp
    simp only [splitOnChar, List.mem_singleton] at hp
    subst hp
    exact List.not_mem_nil sep
  | cons c cs ih =>
    intro p hp
    simp only [splitOnChar] at hp
    by_cases hc : c = sep
    · rw [if_pos hc] at hp
      rcases List.mem_cons.mp hp with h1 | h2
      · subst h1; exact List.not_mem_nil sep
      · exact ih h2
    · rw [if_neg hc] at hp
      cases hsp : splitOnChar sep cs with
      | nil => exact absurd hsp (splitOnChar_ne_nil sep cs)
      | cons r rs =>
        rw [hsp] at hp
        simp only [consHead] at hp
        rcases List.mem_cons.mp hp with h1 | h2
        · subst h1
          intro hm
          rcases List.mem_cons.mp hm with hm1 | hm2
          · exact hc hm1.symm
          · exact ih (hsp ▸ List.mem_cons_self r rs) hm2
        · exact ih (hsp ▸ List.mem_cons_of_mem r h2)

theorem mem_of_mem_splitOnChar {sep c : Char} :
    ∀ {l p : List Char}, p ∈ splitOnChar sep l → c ∈ p → c ∈ l := by
  intro l
  induction l with
  | nil =>
    intro p hp hc
    simp only [splitOnChar, List.mem_singleton] at hp
    subst hp
    exact absurd hc (List.not_mem_nil c)
  | cons a cs ih =>
    intro p hp hc
    simp only [splitOnChar] at hp
    by_cases ha : a = sep
    · rw [if_pos ha] at hp
      rcases List.mem_cons.mp hp with h1 | h2
      · subst h1; exact absurd hc (List.not_mem_nil c)
      · exact List.mem_cons_of_mem a (ih h2 hc)
    · rw [if_neg ha] at hp
      cases hsp : splitOnChar sep cs with
      | nil => exact absurd hsp (splitOnChar_ne_nil sep cs)
      | cons r rs =>
        rw [hsp] at hp
        simp only [consHead] at hp
        rcases List.mem_cons.mp hp with h1 | h2
        · subst h1
          rcases List.mem_cons.mp hc with hc1 | hc2
          · rw [hc1]; exact List.mem_cons_self a cs
          · exact List.mem_cons_of_mem a (ih (hsp ▸ List.mem_cons_self r rs) hc2)
        · exact List.mem_cons_of_mem a (ih (hsp ▸ List.mem_cons_of_mem r h2) hc)

theorem splitOnChar_of_not_mem {sep : Char} {l : List Char} (h : sep ∉ l) :
    splitOnChar sep l = [l] := by
  induction l with
  | nil => rfl
  | cons c cs ih =>
    have hc : c ≠ sep := fun e => h (e ▸ List.mem_cons_self c cs)
    have hcs : sep ∉ cs := fun m => h (List.mem_cons_of_mem c m)
    simp only [splitOnChar]
    rw [if_neg hc, ih hcs]
    simp only [consHead]

theorem splitOnChar_append_sep {sep : Char} {xs : List Char} (h : sep ∉ xs)
    (rest : List Char) :
    splitOnChar sep (xs ++ sep :: rest) = xs :: splitOnChar sep rest := by
  induction xs with
  | nil =>
    rw [List.nil_append]
    simp only [splitOnChar]
    rw [if_pos trivial]
  | cons c cs ih =>
    have hc : c ≠ sep := fun e => h (e ▸ List.mem_cons_self c cs)
    have hcs : sep ∉ cs := fun m => h (List.mem_cons_of_mem c m)
    rw [List.cons_append]
    simp only [splitOnChar]
    rw [if_neg hc, ih hcs]
    simp only [consHead]

theorem splitOnChar_joinSep {sep : Char} :
    ∀ xss : List (List Char), xss ≠ [] → (∀ xs ∈ xss, sep ∉ xs) →
      splitOnChar sep (joinSep sep xss) = xss
  | [], h, _ => absurd rfl h
  | [x], _, hall => by
    rw [joinSep, splitOnChar_of_not_mem (hall x (List.mem_singleton_self x))]
  | x :: y :: xss, _, hall => by
    rw [joinSep, splitOnChar_append_sep (hall x (List.mem_cons_self x _)),
      splitOnChar_joinSep (y :: xss) (by simp)
        (fun xs hxs => hall xs (List.mem_cons_of_mem x hxs))]

theorem mem_joinSep {sep c : Char} :
    ∀ {xss : List (List Char)}, c ∈ joinSep sep xss →
      c = sep ∨ ∃ xs ∈ xss, c ∈ xs
  | [], h => absurd h (List.not_mem_nil c)
  | [x], h => Or.inr ⟨x, List.mem_singleton_self x, h⟩
  | x :: y :: xss, h => by
    rw [joinSep] at h
    rcases List.mem_append.mp h with h1 | h2
    · exact Or.inr ⟨x, List.mem_cons_self x _, h1⟩
    · rcases List.mem_cons.mp h2 with h3 | h4
      · exact Or.inl h3
      · rcases mem_joinSep h4 with h5 | ⟨xs, hxs, hc⟩
        · exact Or.inl h5
        · exact Or.inr ⟨xs, List.mem_cons_of_mem x hxs, hc⟩

theorem splitOnChar_terminated {α : Type} {sep : Char} {f : α → List Char} :
    ∀ {ls : List α}, (∀ l ∈ ls, sep ∉ f l) →
      splitOnChar sep (ls.flatMap fun l => f l ++ [sep]) = ls.map f ++ [[]] := by
  intro ls
  induction ls with
  | nil => intro _; rfl
  | cons l ls ih =>
    intro hall
    rw [List.flatMap_cons, List.append_assoc, List.singleton_append,
      splitOnChar_append_sep (hall l (List.mem_cons_self _ _)),
      ih (fun x hx => hall x (List.mem_cons_of_mem l hx)), List.map_cons,
      List.cons_append]

/-! ## Row and document codec round-trips -/

/-- A field that survives CSV encoding: no separator characters inside. -/
def wfField (f : List Char) : Prop := ',' ∉ f ∧ '\n' ∉ f

/-- A row whose five fields all survive CSV encoding. -/
def wfRow (r : CsvRow) : Prop :=
  wfField r.date ∧ wfField r.state ∧ wfField r.fips ∧ wfField r.cases ∧ wfField r.deaths

theorem encodeRow_ne_nil (r : CsvRow) : encodeRow r ≠ [] := by
  rw [encodeRow, joinSep]
  simp

theorem decodeRow_encodeRow {r : CsvRow} (h : wfRow r) : decodeRow (encodeRow r) = some r := by
  have hf : ∀ xs ∈ [r.date, r.state, r.fips, r.cases, r.deaths], ',' ∉ xs := by
    intro xs hxs
    rcases h with ⟨h1, h2, h3, h4, h5⟩
    simp only [List.mem_cons, List.mem_singleton] at hxs
    rcases hxs with rfl | rfl | rfl | rfl | rfl | hfalse
    · exact h1.1
    · exact h2.1
    · exact h3.1
    · exact h4.1
    · exact h5.1
    · exact absurd hfalse (List.not_mem_nil xs)
  rw [decodeRow, encodeRow, splitOnChar_joinSep _ (by simp) hf]

theorem nl_not_mem_encodeRow {r : CsvRow} (h : wfRow r) : '\n' ∉ encodeRow r := by
  intro hmem
  rw [encodeRow] at hmem
  rcases mem_joinSep hmem with he | ⟨xs, hxs, hcin⟩
  · exact absurd he (by decide)
  · rcases h with ⟨h1, h2, h3, h4, h5⟩
    simp only [List.mem_cons, List.mem_singleton] at hxs
    rcases hxs with rfl | rfl | rfl | rfl | rfl | hfalse
    · exact h1.2 hcin
    · exact h2.2 hcin
    · exact h3.2 hcin
    · exact h4.2 hcin
    · exact h5.2 hcin
    · exact absurd hfalse (List.not_mem_nil xs)

theorem decodeRows_map_encodeRow :
    ∀ {rows : List CsvRow}, (∀ r ∈ rows, wfRow r) →
      decodeRows (rows.map encodeRow) = some rows := by
  intro rows
  induction rows with
  | nil => intro _; rfl
  | cons r rs ih =>
    intro hall
    rw [List.map_cons]
    simp only [decodeRows]
    rw [decodeRow_encodeRow (hall r (List.mem_cons_self _ _)),
      ih (fun x hx => hall x (List.mem_cons_of_mem _ hx))]

/-- Re-decoding an encoded snapshot recovers exactly the same rows. -/
theorem decodeCsv_encodeCsv {rows : List CsvRow} (h : ∀ r ∈ rows, wfRow r) :
    decodeCsv (encodeCsv rows) = some rows := by
  have hlines : splitOnChar '\n' (encodeCsv rows)
      = headerChars :: (rows.map encodeRow ++ [[]]) := by
    rw [encodeCsv, splitOnChar_append_sep (by decide),
      splitOnChar_terminated (fun r hr => nl_not_mem_encodeRow (h r hr))]
  have hfil : (splitOnChar '\n' (encodeCsv rows)).filter (fun l => !l.isEmpty)
      = headerChars :: rows.map encodeRow := by
    rw [hlines, List.filter_cons, if_pos (by decide), List.filter_append]
    have h1 : (rows.map encodeRow).filter (fun l => !l.isEmpty) = rows.map encodeRow := by
      refine List.filter_eq_self.mpr ?_
      intro a ha
      rcases List.mem_map.mp ha with ⟨r, _, rfl⟩
      simp [List.isEmpty_eq_false.mpr (encodeRow_ne_nil r)]
    have h2 : List.filter (fun l : List Char => !l.isEmpty) [[]] = [] := by decide
    rw [h1, h2, List.append_nil]
  rw [decodeCsv, hfil]
  simp only [if_pos rfl]
  exact decodeRows_map_encodeRow h

theorem decodeRows_mem :
    ∀ {lines : List (List Char)} {rows : List CsvRow}, decodeRows lines = some rows →
      ∀ r ∈ rows, ∃ line ∈ lines, decodeRow line = some r := by
  intro lines
  induction lines with
  | nil =>
    intro rows h r hr
    simp only [decodeRows, Option.some.injEq] at h
    subst h
    exact absurd hr (List.not_mem_nil r)
  | cons line rest ih =>
    intro rows h r hr
    simp only [decodeRows] at h
    cases h1 : decodeRow line with
    | none => rw [h1] at h; exact absurd h (by simp)
    | some r0 =>
      cases h2 : decodeRows rest with
      | none => rw [h1, h2] at h; exact absurd h (by simp)
      | some rs0 =>
        rw [h1, h2] at h
        rw [Option.some.injEq] at h
        subst h
        rcases List.mem_cons.mp hr with hr1 | hr2
        · exact ⟨line, List.mem_cons_self _ _, hr1 ▸ h1⟩
        · rcases ih h2 r hr2 with ⟨l2, hl2, hd2⟩
          exact ⟨l2, List.mem_cons_of_mem _ hl2, hd2⟩

theorem decodeRow_wf {line : List Char} {r : CsvRow} (h : decodeRow line = some r)
    (hnl : '\n' ∉ line) : wfRow r := by
  rw [decodeRow] at h
  split at h
  case _ d s f c dh heq =>
    rw [Option.some.injEq] at h
    subst h
    have hmem : ∀ x ∈ [d, s, f, c, dh], wfField x := by
      intro x hx
      have hx2 : x ∈ splitOnChar ',' line := by rw [heq]; exact hx
      refine ⟨mem_splitOnChar_not_sep hx2, ?_⟩
      intro hin
      exact hnl (mem_of_mem_splitOnChar hx2 hin)
    refine ⟨hmem d ?_, hmem s ?_, hmem f ?_, hmem c ?_, hmem dh ?_⟩ <;> simp
  case _ =>
    exact absurd h (by simp)

theorem decodeCsv_wf {payload : List Char} {rows : List CsvRow}
    (h : decodeCsv payload = some rows) : ∀ r ∈ rows, wfRow r := by
  rw [decodeCsv] at h
  split at h
  case _ heq => exact absurd h (by simp)
  case _ hd dataLines heq =>
    split at h
    case isTrue =>
      intro r hr
      rcases decodeRows_mem h r hr with ⟨line, hline, hdec⟩
      have hmem : line ∈ splitOnChar '\n' payload := by
        have hin : line ∈ (splitOnChar '\n' payload).filter (fun l => !l.isEmpty) := by
          rw [heq]
          exact List.mem_cons_of_mem _ hline
        exact (List.mem_filter.mp hin).1
      exact decodeRow_wf hdec (mem_splitOnChar_not_sep hmem)
    case isFalse =>
      exact absurd h (by simp)

/-! ## The canonical re-rendering is CSV-safe and value-preserving -/

theorem mem_natDigitsAux {c : Char} :
    ∀ (fuel n : Nat) (acc : List Char), c ∈ natDigitsAux fuel n acc →
      c ∈ acc ∨ ∃ d, d < 10 ∧ c = digitChar d := by
  intro fuel
  induction fuel with
  | zero => intro n acc h; exact Or.inl h
  | succ f ih =>
    intro n acc h
    rw [natDigitsAux] at h
    by_cases hn : n < 10
    · rw [if_pos hn] at h
      rcases List.mem_cons.mp h with h1 | h2
      · exact Or.inr ⟨n, hn, h1⟩
      · exact Or.inl h2
    · rw [if_neg hn] at h
      rcases ih _ _ h with h1 | h2
      · rcases List.mem_cons.mp h1 with h3 | h4
        · exact Or.inr ⟨n % 10, Nat.mod_lt n (by norm_num), h3⟩
        · exact Or.inl h4
      · exact Or.inr h2

theorem digitChar_ne_sep : ∀ d, d < 10 → digitChar d ≠ ',' ∧ digitChar d ≠ '\n' := by
  decide

theorem natDigits_wf (n : Nat) : wfField (natDigits n) := by
  constructor <;> intro hmem <;>
    rcases mem_natDigitsAux _ _ _ hmem with h1 | ⟨d, hd, he⟩
  · exact absurd h1 (List.not_mem_nil _)
  · exact (digitChar_ne_sep d hd).1 he.symm
  · exact absurd h1 (List.not_mem_nil _)
  · exact (digitChar_ne_sep d hd).2 he.symm

theorem wfField_nil : wfField [] :=
  ⟨List.not_mem_nil _, List.not_mem_nil _⟩

theorem wfField_append {a b : List Char} (ha : wfField a) (hb : wfField b) :
    wfField (a ++ b) := by
  constructor <;> intro hmem
  · rcases List.mem_append.mp hmem with h | h
    · exact ha.1 h
    · exact hb.1 h
  · rcases List.mem_append.mp hmem with h | h
    · exact ha.2 h
    · exact hb.2 h

theorem wfField_cons {c : Char} {t : List Char} (h1 : c ≠ ',') (h2 : c ≠ '\n')
    (ht : wfField t) : wfField (c :: t) := by
  constructor <;> intro hmem <;> rcases List.mem_cons.mp hmem with h | h
  · exact h1 h.symm
  · exact ht.1 h
  · exact h2 h.symm
  · exact ht.2 h

theorem renderInt_wf (v : Int) : wfField (renderInt v) := by
  cases v with
  | ofNat n => exact natDigits_wf n
  | negSucc n =>
    exact wfField_cons (by decide) (by decide) (natDigits_wf (n + 1))

theorem wfField_replicate (k : Nat) : wfField (List.replicate k '0') := by
  constructor <;> intro hmem <;>
    rcases List.eq_of_mem_replicate hmem

theorem renderFloatStripped_wf (m : Int) (e : Nat) :
    wfField (renderFloatStripped m e) := by
  rw [renderFloatStripped]
  by_cases he : e = 0
  · rw [if_pos he]
    exact wfField_append (renderInt_wf m)
      (wfField_cons (by decide) (by decide)
        (wfField_cons (by decide) (by decide) wfField_nil))
  · rw [if_neg he]
    refine wfField_append (wfField_append ?_ (natDigits_wf _))
      (wfField_cons (by decide) (by decide)
        (wfField_append (wfField_replicate _) (natDigits_wf _)))
    by_cases hm : m < 0
    · rw [if_pos hm]
      exact wfField_cons (by decide) (by decide) wfField_nil
    · rw [if_neg hm]
      exact wfField_nil

theorem renderFloatCell_wf (cv : CellVal) : wfField (renderFloatCell cv) := by
  cases cv with
  | num d => exact renderFloatStripped_wf _ _
  | nan => exact wfField_nil

theorem canonField_wf {k : ColKind} {a : List Char} (ha : wfField a) :
    wfField (canonField k a) := by
  cases k with
  | objCol => exact ha
  | intCol =>
    cases h : parseIntText a with
    | none => simpa [canonField, h] using ha
    | some v =>
      simp only [canonField, h]
      exact renderInt_wf v
  | floatCol =>
    cases h : parseFloatCell a with
    | none => simpa [canonField, h] using ha
    | some cv =>
      simp only [canonField, h]
      exact renderFloatCell_wf cv

theorem canonRows_wf {payload : List Char} {rows : List CsvRow}
    (h : decodeCsv payload = some rows) : ∀ r ∈ canonRows rows, wfRow r := by
  intro r hr
  rcases List.mem_map.mp hr with ⟨r0, hr0, rfl⟩
  have hw := decodeCsv_wf h r0 hr0
  exact ⟨canonField_wf hw.1, canonField_wf hw.2.1, canonField_wf hw.2.2.1,
    canonField_wf hw.2.2.2.1, canonField_wf hw.2.2.2.2⟩

/-- A field survives extraction up to its column's numeric re-rendering:
either byte-identical, or printed back from the integer or float value
the type decode read off it. -/
def fieldPreserved (a b : List Char) : Prop :=
  b = a ∨
  (∃ v : Int, parseIntText a = some v ∧ b = renderInt v) ∨
  (∃ c : CellVal, parseFloatCell a = some c ∧ b = renderFloatCell c)

/-- All five fields of a row survive extraction up to numeric re-rendering. -/
def rowValuePreserved (r r2 : CsvRow) : Prop :=
  fieldPreserved r.date r2.date ∧ fieldPreserved r.state r2.state ∧
  fieldPreserved r.fips r2.fips ∧ fieldPreserved r.cases r2.cases ∧
  fieldPreserved r.deaths r2.deaths

theorem fieldPreserved_canonField (k : ColKind) (a : List Char) :
    fieldPreserved a (canonField k a) := by
  cases k with
  | objCol => exact Or.inl rfl
  | intCol =>
    cases h : parseIntText a with
    | none =>
      refine Or.inl ?_
      simp [canonField, h]
    | some v =>
      refine Or.inr (Or.inl ⟨v, h, ?_⟩)
      simp [canonField, h]
  | floatCol =>
    cases h : parseFloatCell a with
    | none =>
      refine Or.inl ?_
      simp [canonField, h]
    | some cv =>
      refine Or.inr (Or.inr ⟨cv, h, ?_⟩)
      simp [canonField, h]

theorem forall₂_canonRow (ks : ColKinds) (rows : List CsvRow) :
    List.Forall₂ rowValuePreserved rows (rows.map (canonRow ks)) := by
  induction rows with
  | nil => exact List.Forall₂.nil
  | cons r rs ih =>
    exact List.Forall₂.cons
      ⟨fieldPreserved_canonField _ _, fieldPreserved_canonField _ _,
        fieldPreserved_canonField _ _, fieldPreserved_canonField _ _,
        fieldPreserved_canonField _ _⟩ ih

/-! ## When the transform fails -/

theorem parseAll_eq_none_iff {rows : List CsvRow} :
    parseAll rows = none ↔ ∃ r ∈ rows, parseRow r = none := by
  induction rows with
  | nil => simp [parseAll]
  | cons r rs ih =>
    cases h1 : parseRow r with
    | none =>
      simp only [parseAll, h1]
      constructor
      · intro _; exact ⟨r, List.mem_cons_self _ _, h1⟩
      · intro _; trivial
    | some t =>
      cases h2 : parseAll rs with
      | none =>
        simp only [parseAll, h1, h2]
        constructor
        · intro _
          rcases ih.mp h2 with ⟨x, hx, hpx⟩
          exact ⟨x, List.mem_cons_of_mem _ hx, hpx⟩
        · intro _; trivial
      | some ts =>
        simp only [parseAll, h1, h2]
        constructor
        · intro hc; exact absurd hc (by simp)
        · rintro ⟨x, hx, hpx⟩
          rcases List.mem_cons.mp hx with hx1 | hx2
          · rw [hx1, h1] at hpx; exact absurd hpx (by simp)
          · have hall := ih.mpr ⟨x, hx2, hpx⟩
            rw [h2] at hall
            exact absurd hall (by simp)

theorem transform_data_error_iff {rows : List CsvRow} :
    transform_data rows = Except.error PipelineError.MalformedSource
      ↔ ∃ r ∈ rows, parseRow r = none := by
  rw [transform_data]
  cases h : parseAll rows with
  | none =>
    constructor
    · intro _; exact parseAll_eq_none_iff.mp h
    · intro _; rfl
  | some ts =>
    constructor
    · intro hc; exact absurd hc (by simp)
    · intro hex
      rw [parseAll_eq_none_iff.mpr hex] at h
      exact absurd h (by simp)

theorem transform_data_ok {rows : List CsvRow} {ts : List TypedRow}
    (h : parseAll rows = some ts) :
    transform_data rows = Except.ok (transform_core ts) := by
  rw [transform_data, h]

/-- What one DAG run does when the snapshot decodes structurally but some
numeric cell fails to convert: the transform raises, the clean stager and
the loader never start, but the raw stager (a sibling of the transform,
gated only on the extract) has already overwritten the raw key. -/
theorem run_etl_malformed_numeric {w : WorldState} {payload : List Char}
    {rows : List CsvRow} {t : List CleanRecord}
    (hdec : decodeCsv payload = some rows)
    (hbad : ∃ r ∈ canonRows rows, parseRow r = none)
    (htab : w.table = some t) :
    (run_etl w payload).error = some PipelineError.MalformedSource ∧
    (run_etl w payload).world.s3clean = w.s3clean ∧
    (run_etl w payload).world.table = some t ∧
    (run_etl w payload).world.s3raw = some (encodeCsv (canonRows rows)) := by
  have htd : transform_data (canonRows rows)
      = Except.error PipelineError.MalformedSource :=
    transform_data_error_iff.mpr hbad
  have hex : extract_data payload = Except.ok (encodeCsv (canonRows rows)) := by
    rw [extract_data, hdec]
  have hdec2 : decodeCsv (encodeCsv (canonRows rows)) = some (canonRows rows) :=
    decodeCsv_encodeCsv (canonRows_wf hdec)
  refine ⟨?_, ?_, ?_, ?_⟩ <;>
    simp [run_etl, hex, hdec2, htd, stage_raw_data_to_s3,
      create_postgres_table_if_not_exists, htab]

/-! ## Concrete data for the specified scenarios -/

/-- Row `(2021-01-01, NY, 36, 100, 5)` of Scenario A. -/
def nyRow1 : CsvRow :=
  ⟨"2021-01-01".toList, "NY".toList, "36".toList, "100".toList, "5".toList⟩

/-- Row `(2021-01-02, NY, 36, 150, 5)` of Scenario A. -/
def nyRow2 : CsvRow :=
  ⟨"2021-01-02".toList, "NY".toList, "36".toList, "150".toList, "5".toList⟩

/-- Row `(2021-01-03, NY, 36, 140, 7)` of Scenario A. -/
def nyRow3 : CsvRow :=
  ⟨"2021-01-03".toList, "NY".toList, "36".toList, "140".toList, "7".toList⟩

/-- The Scenario A input snapshot. -/
def scenarioAInput : List CsvRow := [nyRow1, nyRow2, nyRow3]

/-- The Scenario A input snapshot after type conversion. -/
def scenarioATyped : List TypedRow :=
  [⟨20210101, "NY".toList, ⟨36, 0⟩, ⟨100, 0⟩, ⟨5, 0⟩⟩,
   ⟨20210102, "NY".toList, ⟨36, 0⟩, ⟨150, 0⟩, ⟨5, 0⟩⟩,
   ⟨20210103, "NY".toList, ⟨36, 0⟩, ⟨140, 0⟩, ⟨7, 0⟩⟩]

/-- The cleaned output of Scenario A. -/
def scenarioAOutput : List CleanRecord :=
  [⟨20210101, "NY".toList, 36, 100, 5, 0, 0⟩,
   ⟨20210102, "NY".toList, 36, 150, 5, 50, 0⟩,
   ⟨20210103, "NY".toList, 36, 140, 7, 0, 2⟩]

/-- First Arizona row for the interleaved Scenario B. -/
def azRow1 : CsvRow :=
  ⟨"2021-01-01".toList, "AZ".toList, "4".toList, "10".toList, "0".toList⟩

/-- Second Arizona row for the interleaved Scenario B. -/
def azRow2 : CsvRow :=
  ⟨"2021-01-02".toList, "AZ".toList, "4".toList, "20".toList, "1".toList⟩

/-- Scenario B: two states interleaved in arbitrary input order. -/
def scenarioBInput : List CsvRow := [nyRow2, azRow2, nyRow1, azRow1, nyRow3]

/-- The cleaned output of Scenario B. -/
def scenarioBOutput : List CleanRecord :=
  [⟨20210101, "AZ".toList, 4, 10, 0, 0, 0⟩,
   ⟨20210102, "AZ".toList, 4, 20, 1, 10, 1⟩,
   ⟨20210101, "NY".toList, 36, 100, 5, 0, 0⟩,
   ⟨20210102, "NY".toList, 36, 150, 5, 50, 0⟩,
   ⟨20210103, "NY".toList, 36, 140, 7, 0, 2⟩]

/-- A row carrying the fractional cases value `100.5`. -/
def fracRow : CsvRow :=
  ⟨"2021-01-01".toList, "NY".toList, "36".toList, "100.5".toList, "5".toList⟩

/-- The output the two duplicated copies of `nyRow1` produce. -/
def dupOutput : List CleanRecord :=
  [⟨20210101, "NY".toList, 36, 100, 5, 0, 0⟩,
   ⟨20210101, "NY".toList, 36, 100, 5, 0, 0⟩]

/-- A payload whose fips field is zero-padded, as the NYT source writes it. -/
def zeroPadPayload : List Char :=
  ("date,state,fips,cases,deaths\n2020-03-13,Alabama,01,6,0\n").toList

/-- The decoded row of `zeroPadPayload`, fips text `01`. -/
def zeroPadRow : CsvRow :=
  ⟨"2020-03-13".toList, "Alabama".toList, "01".toList, "6".toList, "0".toList⟩

/-- The same row as the extract re-renders it: fips text `1`. -/
def zeroPadCanonRow : CsvRow :=
  ⟨"2020-03-13".toList, "Alabama".toList, "1".toList, "6".toList, "0".toList⟩

/-- A well-formed two-row source payload. -/
def samplePayload : List Char :=
  ("date,state,fips,cases,deaths\n2021-01-01,NY,36,100,5\n2021-01-02,NY,36,150,5\n").toList

/-- The cleaned records of `samplePayload`. -/
def sampleCleanRows : List CleanRecord :=
  [⟨20210101, "NY".toList, 36, 100, 5, 0, 0⟩,
   ⟨20210102, "NY".toList, 36, 150, 5, 50, 0⟩]

/-- A row whose cases value is the non-numeric text `abc`. -/
def badRow : CsvRow :=
  ⟨"2021-01-01".toList, "NY".toList, "36".toList, "abc".toList, "5".toList⟩

/-- A payload whose single data row has non-numeric cases. -/
def badPayload : List Char :=
  ("date,state,fips,cases,deaths\n2021-01-01,NY,36,abc,5\n").toList

/-- A world with empty S3 keys and one previously loaded row. -/
def priorW : WorldState :=
  ⟨none, none, some [⟨20200101, "CA".toList, 6, 1, 0, 0, 0⟩]⟩

/-! ## Claim theorems -/

/-- C1: on the three-row input `[(2021-01-01, NY, 36, 100, 5),
(2021-01-02, NY, 36, 150, 5), (2021-01-03, NY, 36, 140, 7)]` the
Transformer produces `new_cases = [0, 50, 0]` (the decrease `140 - 150 = -10`
is clamped to 0) and `new_deaths = [0, 0, 2]`, for the three dates in
ascending order. -/
theorem C1_scenarioA :
    transform_data scenarioAInput = Except.ok scenarioAOutput ∧
    scenarioAOutput.map CleanRecord.new_cases = [0, 50, 0] ∧
    scenarioAOutput.map CleanRecord.new_deaths = [0, 0, 2] ∧
    scenarioAOutput.map CleanRecord.date = [20210101, 20210102, 20210103] :=
  ⟨rfl, rfl, rfl, rfl⟩

/-- C2: for every input snapshot, every record of a successful Transformer
output has `new_cases ≥ 0` and `new_deaths ≥ 0`, including when a state's
cumulative counts decrease between dates. -/
theorem C2_nonneg (rows : List CsvRow) (out : List CleanRecord)
    (h : transform_data rows = Except.ok out) :
    ∀ c ∈ out, 0 ≤ c.new_cases ∧ 0 ≤ c.new_deaths := by
  cases hp : parseAll rows with
  | none => rw [transform_data, hp] at h; exact absurd h (by simp)
  | some ts =>
    have h2 := (transform_data_ok hp).symm.trans h
    rw [Except.ok.injEq] at h2
    subst h2
    intro c hc
    exact mem_transform_core_nonneg hc

/-- Witness for C2 at the Scenario A input. -/
theorem C2_witness :
    (0 : Int) ≤ (⟨20210102, "NY".toList, 36, 150, 5, 50, 0⟩ : CleanRecord).new_cases ∧
    (0 : Int) ≤ (⟨20210102, "NY".toList, 36, 150, 5, 50, 0⟩ : CleanRecord).new_deaths :=
  C2_nonneg scenarioAInput scenarioAOutput rfl
    ⟨20210102, "NY".toList, 36, 150, 5, 50, 0⟩ (by decide)

/-- C3: for every input snapshot and every state, the records of that state
in a successful Transformer output are in ascending date order, and the
first (earliest-dated) one has `new_cases = 0` and `new_deaths = 0`,
independently of the other states' rows and of the input interleaving. -/
theorem C3_per_state (rows : List CsvRow) (out : List CleanRecord) (s : List Char)
    (h : transform_data rows = Except.ok out) :
    ((out.filter (fun c => decide (c.state = s))).Pairwise (fun a b => a.date ≤ b.date)) ∧
    ∀ c, (out.filter (fun c => decide (c.state = s))).head? = some c →
      c.new_cases = 0 ∧ c.new_deaths = 0 ∧
      ∀ d ∈ out.filter (fun c => decide (c.state = s)), c.date ≤ d.date := by
  cases hp : parseAll rows with
  | none => rw [transform_data, hp] at h; exact absurd h (by simp)
  | some ts =>
    have h2 := (transform_data_ok hp).symm.trans h
    rw [Except.ok.injEq] at h2
    subst h2
    refine ⟨transform_core_state_sorted ts s, ?_⟩
    intro c hc
    have hz := transform_core_first_of_state hc
    refine ⟨hz.1, hz.2, ?_⟩
    have hsorted := transform_core_state_sorted ts s
    intro d hd
    cases hfl : (transform_core ts).filter (fun c => decide (c.state = s)) with
    | nil => rw [hfl] at hc; exact absurd hc (by simp)
    | cons c0 rest =>
      rw [hfl] at hc hd hsorted
      rw [List.head?_cons, Option.some.injEq] at hc
      subst hc
      rcases List.mem_cons.mp hd with hd1 | hd2
      · rw [hd1]
      · exact List.rel_of_pairwise_cons hsorted hd2

/-- Witness for C3 at the interleaved Scenario B input, state `AZ`. -/
theorem C3_witness :
    ((scenarioBOutput.filter (fun c => decide (c.state = "AZ".toList))).Pairwise
      (fun a b => a.date ≤ b.date)) ∧
    ∀ c, (scenarioBOutput.filter (fun c => decide (c.state = "AZ".toList))).head? = some c →
      c.new_cases = 0 ∧ c.new_deaths = 0 ∧
      ∀ d ∈ scenarioBOutput.filter (fun c => decide (c.state = "AZ".toList)),
        c.date ≤ d.date :=
  C3_per_state scenarioBInput scenarioBOutput ("AZ".toList) rfl

/-- C4 counterexample: on an input snapshot with the same raw row twice,
the Transformer succeeds and its output repeats the `(date, state)` pair,
so the pair is not unique across the output. -/
theorem C4_counterexample :
    transform_data [nyRow1, nyRow1] = Except.ok dupOutput ∧
    ¬ (dupOutput.map cleanKey).Nodup :=
  ⟨rfl, by decide⟩

/-- C4 (amended): the Transformer performs no deduplication; it preserves
the multiset of `(date, state)` pairs, so the pair is unique across the
output exactly when it is unique across the typed input — in particular
whenever the source honors one row per `(state, date)`. -/
theorem C4_keys (rows : List CsvRow) (ts : List TypedRow) (out : List CleanRecord)
    (hp : parseAll rows = some ts) (h : transform_data rows = Except.ok out) :
    ((out.map cleanKey).Perm (ts.map typedKey)) ∧
    ((ts.map typedKey).Nodup → (out.map cleanKey).Nodup) := by
  have h2 := (transform_data_ok hp).symm.trans h
  rw [Except.ok.injEq] at h2
  subst h2
  exact ⟨transform_core_perm_cleanKey ts,
    fun hnd => ((transform_core_perm_cleanKey ts).nodup_iff).mpr hnd⟩

/-- Witness for C4 (amended) at the Scenario A input. -/
theorem C4_witness :
    ((scenarioAOutput.map cleanKey).Perm (scenarioATyped.map typedKey)) ∧
    ((scenarioATyped.map typedKey).Nodup → (scenarioAOutput.map cleanKey).Nodup) :=
  C4_keys scenarioAInput scenarioATyped scenarioAOutput rfl rfl

/-- C5 counterexample: a fractional cases value `100.5` does not make the
Transformer fail; the transform succeeds and silently truncates it to the
integer `100`. -/
theorem C5_counterexample :
    transform_data [fracRow] = Except.ok [⟨20210101, "NY".toList, 36, 100, 5, 0, 0⟩] :=
  rfl

/-- C5 (amended): the Transformer fails with `MalformedSource` exactly when
some row has an unparseable date or a non-numeric `fips`, `cases` or
`deaths` cell; fractional numeric values are not rejected — the integer
cast truncates them toward zero silently. -/
theorem C5_malformed_iff (rows : List CsvRow) :
    transform_data rows = Except.error PipelineError.MalformedSource ↔
      ∃ r ∈ rows, parseRow r = none :=
  transform_data_error_iff

/-- C6 counterexample: a zero-padded fips field `01` (as the NYT source
writes it) is re-rendered by `read_csv` int64 inference plus `to_csv` as
`1` — the extracted snapshot does not preserve the field text exactly as
received, refuting exact value preservation. -/
theorem C6_counterexample :
    decodeCsv zeroPadPayload = some [zeroPadRow] ∧
    extract_data zeroPadPayload = Except.ok (encodeCsv [zeroPadCanonRow]) ∧
    decodeCsv (encodeCsv [zeroPadCanonRow]) = some [zeroPadCanonRow] ∧
    zeroPadCanonRow.fips ≠ zeroPadRow.fips :=
  ⟨by decide, rfl, by decide, by decide⟩

/-- C6 (amended): the Extractor preserves row order and row count with no
filtering; each field is preserved up to the numeric re-rendering of the
type decode — text columns byte-identical, numeric columns re-printed from
the very value parsed out of the received text — and the emitted snapshot
decodes back to exactly those canonically re-rendered rows. -/
theorem C6_extract_canonical (payload : List Char) (rows : List CsvRow)
    (h : decodeCsv payload = some rows) :
    extract_data payload = Except.ok (encodeCsv (canonRows rows)) ∧
    decodeCsv (encodeCsv (canonRows rows)) = some (canonRows rows) ∧
    (canonRows rows).length = rows.length ∧
    List.Forall₂ rowValuePreserved rows (canonRows rows) := by
  refine ⟨by rw [extract_data, h], decodeCsv_encodeCsv (canonRows_wf h), ?_, ?_⟩
  · rw [canonRows, List.length_map]
  · rw [canonRows]
    exact forall₂_canonRow (colKinds rows) rows

/-- Witness for C6 (amended) at a concrete two-row payload. -/
theorem C6_witness :
    extract_data samplePayload = Except.ok (encodeCsv (canonRows [nyRow1, nyRow2])) ∧
    decodeCsv (encodeCsv (canonRows [nyRow1, nyRow2])) = some (canonRows [nyRow1, nyRow2]) ∧
    (canonRows [nyRow1, nyRow2]).length = ([nyRow1, nyRow2] : List CsvRow).length ∧
    List.Forall₂ rowValuePreserved [nyRow1, nyRow2] (canonRows [nyRow1, nyRow2]) :=
  C6_extract_canonical samplePayload [nyRow1, nyRow2] (by decide)

/-- C7: when the snapshot's `(date, state)` pairs are distinct (the
destination primary key), loading leaves the table equal to the snapshot,
and loading the resulting table again with the same snapshot leaves it
unchanged — running twice equals running once, with no duplication. -/
theorem C7_loader_idempotent (t : List CleanRecord) (snap : List CleanRecord)
    (h : (snap.map cleanKey).Nodup) :
    load_clean_data_to_postgres t snap = Except.ok snap ∧
    load_clean_data_to_postgres snap snap = Except.ok snap := by
  constructor <;>
    simp [load_clean_data_to_postgres, copyInto, truncateTable, h]

/-- Witness for C7 at the Scenario A snapshot. -/
theorem C7_witness :
    load_clean_data_to_postgres [] scenarioAOutput = Except.ok scenarioAOutput ∧
    load_clean_data_to_postgres scenarioAOutput scenarioAOutput = Except.ok scenarioAOutput :=
  C7_loader_idempotent [] scenarioAOutput (by decide)

/-- C8: the Transformer is deterministic — two runs of the transform task
on the same payload yield byte-identical CSV output, including ordering;
in this embedding the task is a pure function of the payload alone, so any
two run results coincide. -/
theorem C8_deterministic (payload : List Char)
    (out1 out2 : Except PipelineError (List Char))
    (h1 : transform_task payload = out1) (h2 : transform_task payload = out2) :
    out1 = out2 :=
  h1 ▸ h2

/-- Witness for C8 at a concrete payload. -/
theorem C8_witness :
    transform_task samplePayload = Except.ok (encodeCleanCsv sampleCleanRows) :=
  C8_deterministic samplePayload (transform_task samplePayload)
    (Except.ok (encodeCleanCsv sampleCleanRows)) rfl rfl

/-- C9 counterexample: with a non-numeric cases value the run does fail
with `MalformedSource`, but a staging write still occurs — the raw key is
overwritten, because the raw stager depends only on the extract and is not
gated on the transform. -/
theorem C9_counterexample :
    (run_etl priorW badPayload).error = some PipelineError.MalformedSource ∧
    (run_etl priorW badPayload).world.s3raw ≠ priorW.s3raw :=
  ⟨rfl, by decide⟩

/-- C9 (amended): when the extracted dataset contains a row with a
non-numeric cases value, the run fails with `MalformedSource`; the clean
staging write and the load never start (the processed key and the existing
destination table are unchanged), but the raw staging is independent of
the transform and still overwrites the raw key with the extracted
snapshot. -/
theorem C9_run_malformed (w : WorldState) (payload : List Char)
    (rows : List CsvRow) (t : List CleanRecord)
    (hdec : decodeCsv payload = some rows)
    (hbad : ∃ r ∈ canonRows rows, parseRow r = none)
    (htab : w.table = some t) :
    (run_etl w payload).error = some PipelineError.MalformedSource ∧
    (run_etl w payload).world.s3clean = w.s3clean ∧
    (run_etl w payload).world.table = some t ∧
    (run_etl w payload).world.s3raw = some (encodeCsv (canonRows rows)) :=
  run_etl_malformed_numeric hdec hbad htab

/-- Witness for C9 (amended) at the concrete bad payload. -/
theorem C9_witness :
    (run_etl priorW badPayload).error = some PipelineError.MalformedSource ∧
    (run_etl priorW badPayload).world.s3clean = priorW.s3clean ∧
    (run_etl priorW badPayload).world.table = some [⟨20200101, "CA".toList, 6, 1, 0, 0, 0⟩] ∧
    (run_etl priorW badPayload).world.s3raw = some (encodeCsv (canonRows [badRow])) :=
  C9_run_malformed priorW badPayload [badRow] [⟨20200101, "CA".toList, 6, 1, 0, 0, 0⟩]
    (by decide) ⟨badRow, by decide, by decide⟩ rfl

/-- C10: the Transformer drops no row, adds no row, and modifies no
original field (beyond date and integer re-encoding): the multiset of
`(date, state, fips, cases, deaths)` projections of a successful output is
a permutation of that of the typed input. -/
theorem C10_frame (rows : List CsvRow) (ts : List TypedRow) (out : List CleanRecord)
    (hp : parseAll rows = some ts) (h : transform_data rows = Except.ok out) :
    (out.map projC).Perm (ts.map projT) := by
  have h2 := (transform_data_ok hp).symm.trans h
  rw [Except.ok.injEq] at h2
  subst h2
  exact transform_core_perm_projC ts

/-- Witness for C10 at the Scenario A input. -/
theorem C10_witness :
    (scenarioAOutput.map projC).Perm (scenarioATyped.map projT) :=
  C10_frame scenarioAInput scenarioATyped scenarioAOutput rfl rfl

end CovidPipeline
